import Mathlib

set_option linter.unusedVariables false

/-! Shallow embedding of the slang semantic-elaboration core:
the Scope/lookup engine (src/source/symbols/Scope.cpp) and the
Compilation manager (src/source/compilation/Compilation.cpp).

Symbols, scopes and definitions are arena nodes identified by numeric
ids; C++ pointers are modelled as Option Nat (none = null).  Recursive
climbs over parent pointers take an explicit fuel argument so that every
definition is a total, executable Lean function. -/

/-- Symbol kind tag (subset of slang SymbolKind used by the embedded code). -/
inductive SymbolKind where
  | Root
  | CompilationUnit
  | Definition
  | Package
  | ModuleInstance
  | InterfaceInstance
  | ProgramInstance
  | GenerateBlock
  | Variable
  | FormalArgument
  | Subroutine
  | Parameter
  | EnumValue
  | ExplicitImport
  | WildcardImport
  | TransparentMember
  deriving DecidableEq

/-- InstanceSymbol::isKind: the three instance kinds. -/
def SymbolKind.isInstanceKind : SymbolKind → Bool
  | .ModuleInstance => true
  | .InterfaceInstance => true
  | .ProgramInstance => true
  | _ => false

/-- One symbol node.  parentScope is Symbol::getParentScope (a scope id),
indexInScope is Symbol::getIndex.  wrapped is TransparentMemberSymbol::wrapped,
imported is ExplicitImportSymbol::importedSymbol, isInstantiated is
GenerateBlockSymbol::isInstantiated, definition is InstanceSymbol::definition,
ownScope is the scope this symbol itself owns (for scope-symbols). -/
structure SymbolData where
  kind : SymbolKind
  name : String := ""
  parentScope : Option Nat := none
  indexInScope : Nat := 0
  wrapped : Option Nat := none
  imported : Option Nat := none
  isInstantiated : Bool := true
  definition : Option Nat := none
  ownScope : Option Nat := none
  deriving DecidableEq

/-- A wildcard import tracked by a scope (Compilation::trackImport /
queryImports): the import symbol's in-scope index and the package name. -/
structure WImport where
  index : Nat
  packageName : String
  deriving DecidableEq

/-- Scope data: the scope's own symbol, its name→symbol map and the ordered
wildcard-import list. -/
structure ScopeData where
  thisSym : Nat
  nameMap : List (String × Nat) := []
  imports : List WImport := []
  deriving DecidableEq

/-- Definition kind (DefinitionKind in the source). -/
inductive DefinitionKind where
  | Module
  | Interface
  | Program
  deriving DecidableEq

/-- A definition record as consulted by Compilation::getRoot: name, kind and
for each parameter whether it has a default (ParameterSymbol::hasDefault). -/
structure DefinitionSymbol where
  name : String
  definitionKind : DefinitionKind
  parameters : List Bool
  deriving DecidableEq

/-- Association-list find (models flat_hash_map::find). -/
def assocFind {α β : Type} [DecidableEq α] : List (α × β) → α → Option β
  | [], _ => none
  | (k, v) :: rest, key => if k = key then some v else assocFind rest key

/-- Association-list update of an existing key (models writing through a
map iterator). -/
def assocSet {α β : Type} [DecidableEq α] : List (α × β) → α → β → List (α × β)
  | [], _, _ => []
  | (k, v) :: rest, key, nv =>
    if k = key then (k, nv) :: rest else (k, v) :: assocSet rest key nv

/-- The compilation: arena of symbols and scopes, the package map, the
definition map keyed by (name, lexical scope id), the set of names that are
instantiated anywhere, and the id of the root scope. -/
structure Compilation where
  symbols : List SymbolData := []
  scopes : List ScopeData := []
  packageMap : List (String × Nat) := []
  definitionMap : List ((String × Nat) × DefinitionSymbol) := []
  globalInstantiations : List String := []
  rootScopeId : Nat := 0
  deriving DecidableEq

/-- Fallback symbol for an out-of-range id (never reached on valid inputs). -/
def defaultSymbolData : SymbolData :=
  { kind := .Variable }

/-- Dereference a symbol id. -/
def Compilation.sym (c : Compilation) (i : Nat) : SymbolData :=
  (c.symbols.get? i).getD defaultSymbolData

/-- Dereference a scope id. -/
def Compilation.scope (c : Compilation) (i : Nat) : ScopeData :=
  (c.scopes.get? i).getD { thisSym := 0 }

/-- Compilation::getPackage: flat name→package-symbol map lookup
(Compilation.cpp lines 459-464); returns none when no package exists. -/
def Compilation.getPackage (c : Compilation) (name : String) : Option Nat :=
  assocFind c.packageMap name

/-- A lookup reference point: (scope, uint32 index), Scope.h / Scope.cpp. -/
structure LookupRefPoint where
  scope : Option Nat
  index : Nat
  deriving DecidableEq

/-- Sentinel LookupRefPoint::max = { nullptr, UINT_MAX }. -/
def LookupRefPoint.maxPoint : LookupRefPoint :=
  { scope := none, index := 4294967295 }

/-- Sentinel LookupRefPoint::min = { nullptr, 0 }. -/
def LookupRefPoint.minPoint : LookupRefPoint :=
  { scope := none, index := 0 }

/-- LookupRefPoint::operator< (Scope.cpp lines 33-35): compares index only. -/
def LookupRefPoint.lt (a b : LookupRefPoint) : Bool :=
  a.index < b.index

/-- LookupRefPoint::before(symbol) = (symbol.getScope(), symbol.getIndex()). -/
def LookupRefPoint.before (c : Compilation) (symId : Nat) : LookupRefPoint :=
  { scope := (c.sym symId).parentScope, index := (c.sym symId).indexInScope }

/-- LookupRefPoint::after(symbol) = (symbol.getScope(), symbol.getIndex()+1). -/
def LookupRefPoint.after (c : Compilation) (symId : Nat) : LookupRefPoint :=
  { scope := (c.sym symId).parentScope, index := (c.sym symId).indexInScope + 1 }

/-- Lookup name kinds (spec section 3: Local, Scoped, Callable). -/
inductive LookupNameKind where
  | Local
  | Scoped
  | Callable
  deriving DecidableEq

/-- Lookup result kinds. -/
inductive LookupResultKind where
  | NotFound
  | Found
  | AmbiguousImport
  deriving DecidableEq

/-- The mutable output of a lookup (LookupResult in Scope.h/Scope.cpp). -/
structure LookupResult where
  nameKind : LookupNameKind := .Local
  referencePoint : LookupRefPoint := .maxPoint
  resultKind : LookupResultKind := .NotFound
  symbol : Option Nat := none
  resultWasImported : Bool := false
  imports : List Nat := []
  deriving DecidableEq

/-- Reference point matters iff nameKind is Local or Scoped (spec section 3). -/
def LookupResult.referencePointMatters (r : LookupResult) : Bool :=
  r.nameKind = LookupNameKind.Local ∨ r.nameKind = LookupNameKind.Scoped

/-- LookupResult::setSymbol (Scope.cpp lines 46-50). -/
def LookupResult.setSymbol (r : LookupResult) (found : Option Nat)
    (wasImported : Bool) : LookupResult :=
  { r with symbol := found, resultWasImported := wasImported,
           resultKind := .Found }

/-- LookupResult::addPotentialImport (Scope.cpp lines 52-56): flips the kind
to AmbiguousImport when the import list was already non-empty, then appends. -/
def LookupResult.addPotentialImport (r : LookupResult) (symId : Nat) :
    LookupResult :=
  { r with
    resultKind := if r.imports.isEmpty then r.resultKind else .AmbiguousImport,
    imports := r.imports ++ [symId] }

/-- Scope::lookupDirect (Scope.cpp lines 249-263): empty names miss, explicit
imports are hidden. -/
def Compilation.lookupDirect (c : Compilation) (scopeId : Nat)
    (searchName : String) : Option Nat :=
  if searchName = "" then none
  else
    match assocFind (c.scope scopeId).nameMap searchName with
    | some symId =>
      if (c.sym symId).kind = .ExplicitImport then none else some symId
    | none => none

/-- Unwrapping of a found map entry (Scope.cpp lines 197-209): explicit
imports yield the imported symbol, transparent members yield the wrapped
symbol, anything else yields itself. -/
def Compilation.unwrapSym (c : Compilation) (symId : Nat) : Option Nat :=
  match (c.sym symId).kind with
  | .ExplicitImport => (c.sym symId).imported
  | .TransparentMember => (c.sym symId).wrapped
  | _ => some symId

/-- The direct-search head of Scope::lookup (Scope.cpp lines 185-212): find in
the name map, check declared-before-use when the reference point matters, and
return the unwrapped result; none means fall through. -/
def Compilation.localHit (c : Compilation) (scopeId : Nat)
    (searchName : String) (r : LookupResult) : Option LookupResult :=
  match assocFind (c.scope scopeId).nameMap searchName with
  | none => none
  | some symId =>
    let locationGood :=
      if r.referencePointMatters then
        (LookupRefPoint.before c symId).lt r.referencePoint
      else true
    if locationGood then
      some (r.setSymbol (c.unwrapSym symId)
        (decide ((c.sym symId).kind = .ExplicitImport)))
    else none

/-- The wildcard-import loop break condition (Scope.cpp lines 217-219): stop
at the first import with referencePoint < after(import); the consulted
imports are the preceding prefix. -/
def consultedImports (imports : List WImport) (refPoint : LookupRefPoint) :
    List WImport :=
  imports.takeWhile (fun imp =>
    ! (refPoint.lt { scope := none, index := imp.index + 1 }))

/-- The hits of the wildcard-import loop (Scope.cpp lines 221-227): for each
consulted import, a direct lookup inside its package. -/
def Compilation.importHits (c : Compilation) (imps : List WImport)
    (searchName : String) : List Nat :=
  imps.filterMap (fun imp =>
    match c.getPackage imp.packageName with
    | some pkgSym =>
      match (c.sym pkgSym).ownScope with
      | some ps => c.lookupDirect ps searchName
      | none => none
    | none => none)

/-- The hits a lookup at a given scope collects from its wildcard imports. -/
def Compilation.lookupImportHits (c : Compilation) (scopeId : Nat)
    (searchName : String) (r : LookupResult) : List Nat :=
  c.importHits (consultedImports (c.scope scopeId).imports r.referencePoint)
    searchName

/-- Scope::lookup (Scope.cpp lines 183-247).  Phase 1 is localHit; phase 2
consults wildcard imports (one hit is the answer, two or more leave the
AmbiguousImport kind set by addPotentialImport); phase 3 stops at the root,
where only Scoped lookups record a final package-map result; phase 4 rewrites
the reference point to after(this scope's symbol) and climbs to the parent.
Fuel bounds the climb. -/
def Compilation.lookup (c : Compilation) :
    Nat → Nat → String → LookupResult → LookupResult
  | 0, _, _, r => r
  | fuel + 1, scopeId, searchName, r =>
    match c.localHit scopeId searchName r with
    | some r' => r'
    | none =>
      let hits := c.lookupImportHits scopeId searchName r
      let r1 := hits.foldl LookupResult.addPotentialImport r
      match hits with
      | [h] => r1.setSymbol (some h) true
      | _ :: _ :: _ => r1
      | [] =>
        let sc := c.scope scopeId
        if (c.sym sc.thisSym).kind = .Root then
          if r.nameKind = .Scoped then
            r.setSymbol (c.getPackage searchName) false
          else r
        else
          let r2 := { r with referencePoint := LookupRefPoint.after c sc.thisSym }
          match (c.sym sc.thisSym).parentScope with
          | some parent => c.lookup fuel parent searchName r2
          | none => r2

/-! Diagnostic engine (Compilation.cpp). -/

/-- A diagnostic: code, source location, originating symbol, optional
coalesce count, and the isError predicate. -/
structure Diagnostic where
  code : Nat
  location : Nat
  symbol : Option Nat := none
  coalesceCount : Option Nat := none
  isError : Bool := true
  deriving DecidableEq, Inhabited

/-- getInstanceOrDef (Compilation.cpp lines 131-138): climb parent scopes
until a Definition or an instance kind is reached; none if the chain runs
out. -/
def Compilation.getInstanceOrDef (c : Compilation) :
    Nat → Option Nat → Option Nat
  | _, none => none
  | 0, some _ => none
  | fuel + 1, some s =>
    if (c.sym s).kind = .Definition ∨ (c.sym s).kind.isInstanceKind then
      some s
    else
      match (c.sym s).parentScope with
      | some sc => c.getInstanceOrDef fuel (some ((c.scope sc).thisSym))
      | none => none

/-- isInsideDef (Compilation.cpp lines 573-584): true iff some ancestor
(starting at the symbol itself) is a Definition. -/
def Compilation.isInsideDef (c : Compilation) : Nat → Nat → Bool
  | 0, _ => false
  | fuel + 1, s =>
    if (c.sym s).kind = .Definition then true
    else
      match (c.sym s).parentScope with
      | none => false
      | some sc => c.isInsideDef fuel ((c.scope sc).thisSym)

/-- isSuppressed (Compilation.cpp lines 660-670): true iff some ancestor is
a GenerateBlock with isInstantiated false. -/
def Compilation.isSuppressed (c : Compilation) : Nat → Option Nat → Bool
  | _, none => false
  | 0, some _ => false
  | fuel + 1, some s =>
    if (c.sym s).kind = .GenerateBlock ∧ (c.sym s).isInstantiated = false then
      true
    else
      match (c.sym s).parentScope with
      | some sc => c.isSuppressed fuel (some ((c.scope sc).thisSym))
      | none => false

/-- SIZE_MAX sentinel used for "no definition occurrence". -/
def SIZE_MAX : Nat := 18446744073709551615

/-- One coalesce group of the diagnostic map: the occurrence list and the
definition occurrence index (SIZE_MAX when absent). -/
structure DiagEntry where
  diagList : List Diagnostic
  definitionIndex : Nat
  deriving DecidableEq, Inhabited

/-- The diagnostic store state of a compilation: map keyed by
(code, location), running error count, and the scratch slot for suppressed
diagnostics. -/
structure DiagState where
  diagMap : List ((Nat × Nat) × DiagEntry) := []
  numErrors : Nat := 0
  tempDiag : Diagnostic := default
  deriving DecidableEq

/-- Compilation::addDiag (Compilation.cpp lines 659-705): suppressed
diagnostics go to the scratch slot; otherwise the diagnostic is appended to
its coalesce group (updating definitionIndex when the effective instance is
a Definition), or a new group is created and numErrors is bumped for a new
error entry.  Returns the new state and the diagnostic handed back to the
caller. -/
def Compilation.addDiag (c : Compilation) (fuel : Nat) (st : DiagState)
    (d : Diagnostic) : DiagState × Diagnostic :=
  if c.isSuppressed fuel d.symbol then
    ({ st with tempDiag := d }, d)
  else
    let inst := c.getInstanceOrDef fuel d.symbol
    let instIsDef : Bool :=
      match inst with
      | some i => (c.sym i).kind = .Definition
      | none => false
    match assocFind st.diagMap (d.code, d.location) with
    | some entry =>
      let newEntry : DiagEntry :=
        { diagList := entry.diagList ++ [d],
          definitionIndex :=
            if instIsDef then entry.diagList.length else entry.definitionIndex }
      ({ st with diagMap := assocSet st.diagMap (d.code, d.location) newEntry },
       d)
    | none =>
      let newEntry : DiagEntry :=
        { diagList := [d],
          definitionIndex := if instIsDef then 0 else SIZE_MAX }
      ({ st with
           diagMap := st.diagMap ++ [((d.code, d.location), newEntry)],
           numErrors := st.numErrors + (if d.isError then 1 else 0) },
       d)

/-- Accumulator of the per-group occurrence walk in getSemanticDiagnostics
(Compilation.cpp lines 600-619): the preferred occurrence, its effective
instance, and the count of qualifying occurrences. -/
structure CoalesceWalk where
  found : Option Diagnostic := none
  inst : Option Nat := none
  count : Nat := 0
  deriving DecidableEq

/-- One iteration of the occurrence walk (Compilation.cpp lines 604-619):
resolve the effective instance, skip it when unresolvable, parentless or
inside a definition, count it, and remember it when its parent is neither
Root nor CompilationUnit. -/
def Compilation.coalesceStep (c : Compilation) (fuel : Nat)
    (st : CoalesceWalk) (d : Diagnostic) : CoalesceWalk :=
  match c.getInstanceOrDef fuel d.symbol with
  | none => st
  | some s =>
    match (c.sym s).parentScope with
    | none => st
    | some ps =>
      if c.isInsideDef fuel s then st
      else
        let parentKind := (c.sym ((c.scope ps).thisSym)).kind
        if parentKind ≠ .Root ∧ parentKind ≠ .CompilationUnit then
          { found := some d, inst := some s, count := st.count + 1 }
        else
          { st with count := st.count + 1 }

/-- The per-group emission of getSemanticDiagnostics (Compilation.cpp lines
587-632).  instCount is the instance count per definition collected by the
DiagnosticVisitor (keyed by the instance's definition pointer). -/
def Compilation.issueDiagnostic (c : Compilation) (fuel : Nat)
    (instCount : Option Nat → Nat) (e : DiagEntry) : Diagnostic :=
  if h : e.definitionIndex < e.diagList.length then
    e.diagList.get ⟨e.definitionIndex, h⟩
  else
    let st := e.diagList.foldl (c.coalesceStep fuel) {}
    match st.found, st.inst with
    | some fd, some i =>
      if instCount (c.sym i).definition > st.count then
        { fd with symbol := c.getInstanceOrDef fuel (some i),
                  coalesceCount := some st.count }
      else e.diagList.headI
    | _, _ => e.diagList.headI

/-- The semantic diagnostic list produced from a diagnostic map (the loop of
Compilation.cpp lines 587-632, before source-location sorting, which needs a
source manager and is external to the core). -/
def Compilation.semanticDiagnostics (c : Compilation) (fuel : Nat)
    (instCount : Option Nat → Nat)
    (diagMap : List ((Nat × Nat) × DiagEntry)) : List Diagnostic :=
  diagMap.map (fun kv => c.issueDiagnostic fuel instCount kv.2)

/-- A diagnostic qualifies for the coalesce count (Compilation.cpp lines
605-613): effective instance resolvable, with a parent scope, and not inside
a definition. -/
def Compilation.qualifies (c : Compilation) (fuel : Nat) (d : Diagnostic) :
    Bool :=
  match c.getInstanceOrDef fuel d.symbol with
  | none => false
  | some s =>
    match (c.sym s).parentScope with
    | none => false
    | some _ => ! c.isInsideDef fuel s

/-- A diagnostic is preferred (Compilation.cpp lines 614-618): it qualifies
and its effective instance's parent is neither Root nor CompilationUnit. -/
def Compilation.preferredDiag (c : Compilation) (fuel : Nat)
    (d : Diagnostic) : Bool :=
  match c.getInstanceOrDef fuel d.symbol with
  | none => false
  | some s =>
    match (c.sym s).parentScope with
    | none => false
    | some ps =>
      (! c.isInsideDef fuel s) &&
      (decide ((c.sym ((c.scope ps).thisSym)).kind ≠ .Root)) &&
      (decide ((c.sym ((c.scope ps).thisSym)).kind ≠ .CompilationUnit))

/-- The last preferred occurrence of a list, with an explicit accumulator
(the walk keeps the last such one). -/
def lastPreferredAux (c : Compilation) (fuel : Nat)
    (acc : Option Diagnostic) (l : List Diagnostic) : Option Diagnostic :=
  l.foldl (fun a d => if c.preferredDiag fuel d then some d else a) acc

/-- The last preferred occurrence of a list. -/
def lastPreferred (c : Compilation) (fuel : Nat) (l : List Diagnostic) :
    Option Diagnostic :=
  lastPreferredAux c fuel none l

/-! Finalization: Compilation::getRoot (Compilation.cpp lines 322-377). -/

/-- The top-level filter (Compilation.cpp lines 334-359): the map entry is
keyed under the root scope, the definition is a Module, its name is not
globally instantiated, and every parameter has a default. -/
def Compilation.isTopLevelEntry (c : Compilation)
    (e : (String × Nat) × DefinitionSymbol) : Bool :=
  (decide (e.1.2 = c.rootScopeId)) &&
  (decide (e.2.definitionKind = .Module)) &&
  (! c.globalInstantiations.contains e.2.name) &&
  (e.2.parameters.all (fun b => b))

/-- The surviving definitions, in definition-map order. -/
def Compilation.topDefinitions (c : Compilation) : List DefinitionSymbol :=
  (c.definitionMap.filter c.isTopLevelEntry).map Prod.snd

/-- The definitions instantiated as top-level instances by the first
getRoot() call, sorted by name (Compilation.cpp lines 361-373). -/
def Compilation.topInstanceDefinitions (c : Compilation) :
    List DefinitionSymbol :=
  List.insertionSort (fun a b => a.name ≤ b.name) c.topDefinitions

/-! Error-limit visitor (DiagnosticVisitor, Compilation.cpp lines 23-129)
and the effective error limit (line 570). -/

/-- UINT32_MAX. -/
def UINT32_MAX : Nat := 4294967295

/-- The effective error limit (Compilation.cpp line 570): the errorLimit
option, with 0 meaning unlimited (UINT32_MAX). -/
def effectiveErrorLimit (errorLimit : Nat) : Nat :=
  if errorLimit = 0 then UINT32_MAX else errorLimit

mutual

/-- An AST node visited by the diagnostic visitor: an id and children. -/
inductive AstNode where
  | mk : Nat → AstForest → AstNode

/-- A list of AST nodes. -/
inductive AstForest where
  | nil : AstForest
  | cons : AstNode → AstForest → AstForest

end

mutual

/-- DiagnosticVisitor::handleDefault (Compilation.cpp lines 32-58): when the
running error count strictly exceeds the limit, return false without forcing
or traversing; otherwise force this node's lazy fields (which may add errors,
modelled by errs) and traverse the children.  Returns (continue flag, error
count afterwards, ids of nodes whose lazy fields were forced). -/
def visitSym (errs : Nat → Nat) (errorLimit : Nat) :
    AstNode → Nat → Bool × Nat × List Nat
  | .mk id children, numErrors =>
    if errorLimit < numErrors then (false, numErrors, [])
    else
      let p := visitForest errs errorLimit children (numErrors + errs id)
      (true, p.1, id :: p.2)

/-- Child traversal of the diagnostic visitor. -/
def visitForest (errs : Nat → Nat) (errorLimit : Nat) :
    AstForest → Nat → Nat × List Nat
  | .nil, n => (n, [])
  | .cons t ts, n =>
    let p := visitSym errs errorLimit t n
    let q := visitForest errs errorLimit ts p.2.1
    (q.1, p.2.2 ++ q.2)

end

/-! Member insertion: Scope::insertMember (Scope.cpp lines 269-288).
A sibling chain is a list of (member id, in-scope index) pairs in chain
order (head first). -/

/-- Splice a member after the anchor with the given id (Scope.cpp line 278):
the new index is the anchor's index, plus one iff the anchor is the last
member of the chain. -/
def spliceAfter : List (Nat × Nat) → Nat → Nat → List (Nat × Nat)
  | [], _, _ => []
  | (k, idx) :: rest, a, m =>
    if k = a then
      (k, idx) :: (m, idx + (if rest = [] then 1 else 0)) :: rest
    else
      (k, idx) :: spliceAfter rest a m

/-- Scope::insertMember: a null anchor prepends with index 1 (Scope.cpp lines
273-276); otherwise the member is spliced after the anchor. -/
def insertMember (chain : List (Nat × Nat)) (m : Nat) (anchor : Option Nat) :
    List (Nat × Nat) :=
  match anchor with
  | none => (m, 1) :: chain
  | some a => spliceAfter chain a m

/-- Chains reachable by a sequence of insertMember calls on an initially
empty scope. -/
inductive ChainReachable : List (Nat × Nat) → Prop
  | nil : ChainReachable []
  | step (c : List (Nat × Nat)) (m : Nat) (anchor : Option Nat) :
      ChainReachable c → ChainReachable (insertMember c m anchor)

/-! Net types: Compilation::getNetType (Compilation.cpp lines 764-768) and
the registrations in the constructor (lines 203-222). -/

/-- Token kinds relevant to net types, plus a few non-net kinds. -/
inductive TokenKind where
  | WireKeyword
  | WAndKeyword
  | WOrKeyword
  | TriKeyword
  | TriAndKeyword
  | TriOrKeyword
  | Tri0Keyword
  | Tri1Keyword
  | TriRegKeyword
  | Supply0Keyword
  | Supply1Keyword
  | UWireKeyword
  | Unknown
  | Identifier
  | Pull0Keyword
  | Pull1Keyword
  | IntKeyword
  deriving DecidableEq

/-- Net-type kinds (NetType::NetKind). -/
inductive NetTypeKind where
  | Wire
  | WAnd
  | WOr
  | Tri
  | TriAnd
  | TriOr
  | Tri0
  | Tri1
  | TriReg
  | Supply0
  | Supply1
  | UWire
  | Unknown
  deriving DecidableEq

/-- A net type: its kind and display name. -/
structure NetType where
  netKind : NetTypeKind
  name : String
  deriving DecidableEq

/-- The singleton error net type installed at construction
(Compilation.cpp lines 220-221). -/
def errorNetType : NetType :=
  { netKind := .Unknown, name := "<error>" }

/-- The knownNetTypes map built by the MAKE_NETTYPE block of the
Compilation constructor (Compilation.cpp lines 203-221). -/
def knownNetTypes : List (TokenKind × NetType) :=
  [(.WireKeyword, { netKind := .Wire, name := "wire" }),
   (.WAndKeyword, { netKind := .WAnd, name := "wand" }),
   (.WOrKeyword, { netKind := .WOr, name := "wor" }),
   (.TriKeyword, { netKind := .Tri, name := "tri" }),
   (.TriAndKeyword, { netKind := .TriAnd, name := "triand" }),
   (.TriOrKeyword, { netKind := .TriOr, name := "trior" }),
   (.Tri0Keyword, { netKind := .Tri0, name := "tri0" }),
   (.Tri1Keyword, { netKind := .Tri1, name := "tri1" }),
   (.TriRegKeyword, { netKind := .TriReg, name := "trireg" }),
   (.Supply0Keyword, { netKind := .Supply0, name := "supply0" }),
   (.Supply1Keyword, { netKind := .Supply1, name := "supply1" }),
   (.UWireKeyword, { netKind := .UWire, name := "uwire" }),
   (.Unknown, errorNetType)]

/-- The twelve registered net-type keywords. -/
def isNetTypeKeyword : TokenKind → Bool
  | .WireKeyword => true
  | .WAndKeyword => true
  | .WOrKeyword => true
  | .TriKeyword => true
  | .TriAndKeyword => true
  | .TriOrKeyword => true
  | .Tri0Keyword => true
  | .Tri1Keyword => true
  | .TriRegKeyword => true
  | .Supply0Keyword => true
  | .Supply1Keyword => true
  | .UWireKeyword => true
  | _ => false

/-- Compilation::getNetType (Compilation.cpp lines 764-768): map lookup with
fallback to the always-registered Unknown entry. -/
def getNetType (kind : TokenKind) : NetType :=
  match assocFind knownNetTypes kind with
  | some nt => nt
  | none =>
    match assocFind knownNetTypes TokenKind.Unknown with
    | some nt => nt
    | none => errorNetType

/-! Concrete compilations used by the spec scenarios. -/

/-- Spec scenario 2: a package p under the root scope declaring
parameter x (in-scope index 1) and parameter y (in-scope index 2). -/
def pkgExample : Compilation :=
  { symbols :=
      [{ kind := .Root, ownScope := some 0 },
       { kind := .Package, name := "p", parentScope := some 0,
         indexInScope := 1, ownScope := some 1 },
       { kind := .Parameter, name := "x", parentScope := some 1,
         indexInScope := 1 },
       { kind := .Parameter, name := "y", parentScope := some 1,
         indexInScope := 2 }],
    scopes :=
      [{ thisSym := 0 },
       { thisSym := 1, nameMap := [("x", 2), ("y", 3)] }],
    packageMap := [("p", 1)] }

/-- A lookup issued from y's initializer: reference point before(y). -/
def refFromY : LookupResult :=
  { nameKind := .Local, referencePoint := { scope := some 1, index := 2 } }

/-- A lookup issued from x's initializer: reference point before(x). -/
def refFromX : LookupResult :=
  { nameKind := .Local, referencePoint := { scope := some 1, index := 1 } }

/-- A compilation consisting only of an empty root scope (no packages). -/
def rootOnlyExample : Compilation :=
  { symbols := [{ kind := .Root, ownScope := some 0 }],
    scopes := [{ thisSym := 0 }] }

/-- Spec scenario 3: packages p and q both export foo; a module scope m
imports p::* (import index 1) then q::* (import index 2). -/
def ambExample : Compilation :=
  { symbols :=
      [{ kind := .Root, ownScope := some 0 },
       { kind := .Package, name := "p", ownScope := some 1 },
       { kind := .Package, name := "q", ownScope := some 2 },
       { kind := .Variable, name := "foo", parentScope := some 1,
         indexInScope := 1 },
       { kind := .Variable, name := "foo", parentScope := some 2,
         indexInScope := 1 },
       { kind := .ModuleInstance, name := "m", parentScope := some 0,
         indexInScope := 1, ownScope := some 3 }],
    scopes :=
      [{ thisSym := 0, nameMap := [("m", 5)] },
       { thisSym := 1, nameMap := [("foo", 3)] },
       { thisSym := 2, nameMap := [("foo", 4)] },
       { thisSym := 5, imports := [{ index := 1, packageName := "p" },
                                   { index := 2, packageName := "q" }] }],
    packageMap := [("p", 1), ("q", 2)] }

/-- A lookup of foo from late in scope m (both imports precede it). -/
def refAmb : LookupResult :=
  { nameKind := .Local, referencePoint := { scope := some 3, index := 5 } }

/-- Spec scenario 6: a root scope containing a GenerateBlock whose guard is
false (isInstantiated = false) with a variable inside it. -/
def genExample : Compilation :=
  { symbols :=
      [{ kind := .Root, ownScope := some 0 },
       { kind := .GenerateBlock, parentScope := some 0, indexInScope := 1,
         isInstantiated := false, ownScope := some 1 },
       { kind := .Variable, name := "v", parentScope := some 1,
         indexInScope := 1 }],
    scopes :=
      [{ thisSym := 0 },
       { thisSym := 1, nameMap := [("v", 2)] }] }

/-- A diagnostic raised on the variable inside the dead generate block. -/
def suppressedDiag : Diagnostic :=
  { code := 1, location := 5, symbol := some 2 }

/-- A definition-site diagnostic used to exercise coalescing. -/
def defSiteDiag : Diagnostic :=
  { code := 2, location := 9, symbol := none }

/-- Spec scenario 1: two root-keyed module definitions, b before a in the
definition map, a with one defaulted parameter. -/
def topExample : Compilation :=
  { definitionMap :=
      [(("b", 0), { name := "b", definitionKind := .Module,
                    parameters := [] }),
       (("a", 0), { name := "a", definitionKind := .Module,
                    parameters := [true] })],
    rootScopeId := 0 }

/-! Theorems. -/

/-- C9: LookupRefPoint ordering is purely by index: p < q holds exactly when
p.index < q.index, the scope components are never inspected (replacing them
changes nothing), and the min/max sentinels carry a null scope with indices
0 and UINT_MAX. -/
theorem lookupRefPoint_lt_index_only :
    ∀ p q : LookupRefPoint,
      (p.lt q = true ↔ p.index < q.index) ∧
      (∀ s1 s2 : Option Nat,
        LookupRefPoint.lt { scope := s1, index := p.index }
          { scope := s2, index := q.index } = p.lt q) ∧
      LookupRefPoint.minPoint.scope = none ∧
      LookupRefPoint.maxPoint.scope = none ∧
      LookupRefPoint.minPoint.index = 0 ∧
      LookupRefPoint.maxPoint.index = 4294967295 := by
  intro p q
  refine ⟨?_, fun s1 s2 => rfl, rfl, rfl, rfl, rfl⟩
  simp [LookupRefPoint.lt]

/-- C10: getNetType is total and never fails: every token kind maps to one of
the registered net types, and any kind other than the twelve net-type
keywords yields the singleton Unknown net type displayed as "<error>". -/
theorem getNetType_total_fallback :
    ∀ t : TokenKind,
      getNetType t ∈ knownNetTypes.map Prod.snd ∧
      (isNetTypeKeyword t = false →
        getNetType t = errorNetType ∧ errorNetType.name = "<error>") := by
  intro t
  refine ⟨?_, fun h => ⟨?_, rfl⟩⟩
  · cases t <;> decide
  · revert h; cases t <;> decide

/-- Witness for C10 at a concrete non-net token kind. -/
theorem getNetType_total_fallback_witness :
    getNetType TokenKind.Identifier = errorNetType ∧
      errorNetType.name = "<error>" :=
  (getNetType_total_fallback TokenKind.Identifier).2 rfl

/-- C8: the diagnostic visitor's error-limit early exit: when the running
error count strictly exceeds the effective limit, the visit returns false
without forcing lazy fields or traversing children; the effective limit is
UINT32_MAX when the errorLimit option is 0, otherwise the option value; when
the count is at most the limit, traversal proceeds (this node's lazy fields
are forced and its children are traversed). -/
theorem diagnosticVisitor_error_limit :
    ∀ (errs : Nat → Nat) (opt id n : Nat) (children : AstForest),
      effectiveErrorLimit 0 = UINT32_MAX ∧
      (opt ≠ 0 → effectiveErrorLimit opt = opt) ∧
      (effectiveErrorLimit opt < n →
        visitSym errs (effectiveErrorLimit opt) (.mk id children) n =
          (false, n, [])) ∧
      (n ≤ effectiveErrorLimit opt →
        visitSym errs (effectiveErrorLimit opt) (.mk id children) n =
          (true,
           (visitForest errs (effectiveErrorLimit opt) children
             (n + errs id)).1,
           id :: (visitForest errs (effectiveErrorLimit opt) children
             (n + errs id)).2)) := by
  intro errs opt id n children
  refine ⟨rfl, ?_, ?_, ?_⟩
  · intro h; simp [effectiveErrorLimit, h]
  · intro h; rw [visitSym]; rw [if_pos h]
  · intro h; rw [visitSym]; rw [if_neg (Nat.not_lt.mpr h)]

/-- Witness for C8: with errorLimit option 2 and 5 running errors, the visit
bails out immediately. -/
theorem diagnosticVisitor_error_limit_witness :
    visitSym (fun _ => 1) (effectiveErrorLimit 2) (.mk 7 .nil) 5 =
      (false, 5, []) :=
  (diagnosticVisitor_error_limit (fun _ => 1) 2 7 5 .nil).2.2.1 (by decide)

/-- Helper: list containment test is false exactly for non-members. -/
theorem contains_eq_false_iff {l : List String} {a : String} :
    l.contains a = false ↔ a ∉ l := by
  simp

/-- C2: the first getRoot() call installs as top-level instances exactly the
definitions whose definition-map entry is keyed under the root scope, whose
kind is Module, whose name is not in the global-instantiation set and all of
whose parameters have defaults; the resulting list is sorted
lexicographically by definition name. -/
theorem getRoot_top_instances :
    ∀ (c : Compilation) (d : DefinitionSymbol),
      (d ∈ c.topInstanceDefinitions ↔
        ∃ k : String × Nat,
          (k, d) ∈ c.definitionMap ∧ k.2 = c.rootScopeId ∧
          d.definitionKind = .Module ∧
          d.name ∉ c.globalInstantiations ∧
          ∀ p ∈ d.parameters, p = true) ∧
      List.Sorted (fun a b => a.name ≤ b.name) c.topInstanceDefinitions := by
  intro c d
  constructor
  · rw [Compilation.topInstanceDefinitions, List.mem_insertionSort,
        Compilation.topDefinitions]
    simp only [List.mem_map, List.mem_filter]
    constructor
    · rintro ⟨⟨k, d'⟩, ⟨hmem, htop⟩, rfl⟩
      simp only [Compilation.isTopLevelEntry, Bool.and_eq_true,
        decide_eq_true_eq, Bool.not_eq_true', List.all_eq_true] at htop
      obtain ⟨⟨⟨hroot, hmod⟩, hglob⟩, hpar⟩ := htop
      exact ⟨k, hmem, hroot, hmod, contains_eq_false_iff.mp hglob,
        fun p hp => hpar p hp⟩
    · rintro ⟨k, hmem, hroot, hmod, hglob, hpar⟩
      refine ⟨⟨k, d⟩, ⟨hmem, ?_⟩, rfl⟩
      simp only [Compilation.isTopLevelEntry, Bool.and_eq_true,
        decide_eq_true_eq, Bool.not_eq_true', List.all_eq_true]
      exact ⟨⟨⟨hroot, hmod⟩, contains_eq_false_iff.mpr hglob⟩,
        fun p hp => hpar p hp⟩
  · haveI : IsTotal DefinitionSymbol (fun a b => a.name ≤ b.name) :=
      ⟨fun a b => le_total a.name b.name⟩
    haveI : IsTrans DefinitionSymbol (fun a b => a.name ≤ b.name) :=
      ⟨fun a b e h1 h2 => le_trans h1 h2⟩
    exact List.sorted_insertionSort _ _

/-- Helper: folding addPotentialImport never touches the other result
fields, and appends all hits to the import list. -/
theorem foldl_addPotentialImport_fields :
    ∀ (l : List Nat) (r : LookupResult),
      (l.foldl LookupResult.addPotentialImport r).nameKind = r.nameKind ∧
      (l.foldl LookupResult.addPotentialImport r).referencePoint =
        r.referencePoint ∧
      (l.foldl LookupResult.addPotentialImport r).symbol = r.symbol ∧
      (l.foldl LookupResult.addPotentialImport r).resultWasImported =
        r.resultWasImported ∧
      (l.foldl LookupResult.addPotentialImport r).imports =
        r.imports ++ l := by
  intro l
  induction l with
  | nil => intro r; simp
  | cons a t ih =>
    intro r
    simp only [List.foldl_cons]
    obtain ⟨h1, h2, h3, h4, h5⟩ := ih (r.addPotentialImport a)
    refine ⟨h1, h2, h3, h4, ?_⟩
    rw [h5]
    simp [LookupResult.addPotentialImport]

/-- Helper: once the result kind is AmbiguousImport, further potential
imports keep it AmbiguousImport. -/
theorem foldl_addPotentialImport_keepAmb :
    ∀ (l : List Nat) (r : LookupResult),
      r.resultKind = .AmbiguousImport →
      (l.foldl LookupResult.addPotentialImport r).resultKind =
        .AmbiguousImport := by
  intro l
  induction l with
  | nil => intro r h; simpa using h
  | cons a t ih =>
    intro r h
    simp only [List.foldl_cons]
    apply ih
    simp [LookupResult.addPotentialImport, h]

/-- Helper: two or more hits folded onto an import-free result leave the
kind AmbiguousImport. -/
theorem foldl_addPotentialImport_amb :
    ∀ (a b : Nat) (t : List Nat) (r : LookupResult), r.imports = [] →
      ((a :: b :: t).foldl LookupResult.addPotentialImport r).resultKind =
        .AmbiguousImport := by
  intro a b t r hr
  simp only [List.foldl_cons]
  apply foldl_addPotentialImport_keepAmb
  simp [LookupResult.addPotentialImport, hr]

/-- Helper: a successful localHit is the whole lookup. -/
theorem lookup_of_localHit :
    ∀ (c : Compilation) (fuel scopeId : Nat) (name : String)
      (r r' : LookupResult),
      c.localHit scopeId name r = some r' →
      c.lookup (fuel + 1) scopeId name r = r' := by
  intro c fuel scopeId name r r' h
  simp only [Compilation.lookup, h]

/-- Helper: localHit with a found name and a relevant reference point. -/
theorem localHit_found :
    ∀ (c : Compilation) (scopeId : Nat) (name : String)
      (r : LookupResult) (symId : Nat),
      assocFind (c.scope scopeId).nameMap name = some symId →
      r.referencePointMatters = true →
      c.localHit scopeId name r =
        (if (c.sym symId).indexInScope < r.referencePoint.index then
          some (r.setSymbol (c.unwrapSym symId)
            (decide ((c.sym symId).kind = .ExplicitImport)))
        else none) := by
  intro c scopeId name r symId hfind hm
  simp only [Compilation.localHit, hfind, hm, LookupRefPoint.before,
    LookupRefPoint.lt, if_true]
  by_cases h : (c.sym symId).indexInScope < r.referencePoint.index
  · simp [h]
  · simp [h]

/-- C1: for a name present in the scope's name map, a Local or Scoped lookup
returns the (unwrapped) symbol iff its declaration index is strictly before
the lookup's reference point, while a Callable lookup returns it regardless;
in the package example (parameter x = 1; parameter y = x;), looking up x
from y's initializer returns x, and looking up y from x's initializer
yields NotFound. -/
theorem lookup_declared_before_use :
    ∀ (c : Compilation) (fuel scopeId : Nat) (name : String)
      (r : LookupResult) (symId : Nat),
      assocFind (c.scope scopeId).nameMap name = some symId →
      ((r.nameKind = .Local ∨ r.nameKind = .Scoped) →
        ((c.localHit scopeId name r).isSome = true ↔
          (c.sym symId).indexInScope < r.referencePoint.index) ∧
        ((c.sym symId).indexInScope < r.referencePoint.index →
          c.lookup (fuel + 1) scopeId name r =
            r.setSymbol (c.unwrapSym symId)
              (decide ((c.sym symId).kind = .ExplicitImport)))) ∧
      (r.nameKind = .Callable →
        c.lookup (fuel + 1) scopeId name r =
          r.setSymbol (c.unwrapSym symId)
            (decide ((c.sym symId).kind = .ExplicitImport))) ∧
      (Compilation.lookup pkgExample 5 1 "x" refFromY).resultKind =
        .Found ∧
      (Compilation.lookup pkgExample 5 1 "x" refFromY).symbol = some 2 ∧
      (Compilation.lookup pkgExample 5 1 "y" refFromX).resultKind =
        .NotFound := by
  intro c fuel scopeId name r symId hfind
  refine ⟨?_, ?_, by decide, by decide, by decide⟩
  · intro hk
    have hm : r.referencePointMatters = true := by
      rcases hk with h | h <;>
        simp [LookupResult.referencePointMatters, h]
    rw [localHit_found c scopeId name r symId hfind hm]
    constructor
    · by_cases h : (c.sym symId).indexInScope < r.referencePoint.index
      · simp [h]
      · simp [h]
    · intro h
      apply lookup_of_localHit
      rw [localHit_found c scopeId name r symId hfind hm]
      simp [h]
  · intro hk
    apply lookup_of_localHit
    simp only [Compilation.localHit, hfind]
    have hm : r.referencePointMatters = false := by
      simp [LookupResult.referencePointMatters, hk]
    simp [hm]

/-- Witness for C1: in the package example, the Local lookup of x from y's
initializer reference point succeeds with x itself. -/
theorem lookup_declared_before_use_witness :
    Compilation.lookup pkgExample (4 + 1) 1 "x" refFromY =
      LookupResult.setSymbol refFromY (Compilation.unwrapSym pkgExample 2)
        (decide ((Compilation.sym pkgExample 2).kind = .ExplicitImport)) :=
  ((lookup_declared_before_use pkgExample 4 1 "x" refFromY 2
    (by decide)).1 (Or.inl rfl)).2 (by decide)

/-- C6: a lookup that reaches the root scope with no local hit and no import
hits stops there: a Scoped lookup records the package-map result on the
result (possibly null, with no crash), any other name kind records nothing;
in neither case does the search climb further. -/
theorem lookup_root_package_fallback :
    ∀ (c : Compilation) (fuel scopeId : Nat) (name : String)
      (r : LookupResult),
      c.localHit scopeId name r = none →
      c.lookupImportHits scopeId name r = [] →
      (c.sym (c.scope scopeId).thisSym).kind = .Root →
      (r.nameKind = .Scoped →
        c.lookup (fuel + 1) scopeId name r =
          r.setSymbol (c.getPackage name) false) ∧
      (r.nameKind ≠ .Scoped → c.lookup (fuel + 1) scopeId name r = r) := by
  intro c fuel scopeId name r hlocal hhits hroot
  constructor
  · intro hs
    simp only [Compilation.lookup, hlocal, hhits, List.foldl_nil, hroot,
      if_true, hs]
  · intro hs
    simp only [Compilation.lookup, hlocal, hhits, List.foldl_nil, hroot,
      if_true, if_neg hs]

/-- Witness for C6: at a bare root scope, a Scoped lookup of a name with no
package of that name records a null symbol with kind Found and no crash. -/
theorem lookup_root_package_fallback_witness :
    Compilation.lookup rootOnlyExample (3 + 1) 0 "nopkg"
        { nameKind := .Scoped } =
      LookupResult.setSymbol { nameKind := .Scoped }
        (Compilation.getPackage rootOnlyExample "nopkg") false :=
  (lookup_root_package_fallback rootOnlyExample 3 0 "nopkg"
    { nameKind := .Scoped } (by decide) (by decide) (by decide)).1 rfl

/-- C3: the wildcard-import phase of lookup: only imports declared strictly
before the reference point are consulted (an order-preserving prefix of the
declaration list); exactly one hit becomes the result, flagged as imported;
two or more hits leave resultKind AmbiguousImport with the symbol untouched
and all candidate hits recorded, stopping the search; zero hits continue the
climb to the parent scope. -/
theorem lookup_wildcard_import_ambiguity :
    ∀ (c : Compilation) (fuel scopeId : Nat) (name : String)
      (r : LookupResult),
      c.localHit scopeId name r = none →
      r.imports = [] →
      (∀ imp ∈ consultedImports (c.scope scopeId).imports r.referencePoint,
        imp.index < r.referencePoint.index) ∧
      consultedImports (c.scope scopeId).imports r.referencePoint ++
        (c.scope scopeId).imports.dropWhile
          (fun imp =>
            ! (r.referencePoint.lt { scope := none, index := imp.index + 1 })) =
        (c.scope scopeId).imports ∧
      (∀ h, c.lookupImportHits scopeId name r = [h] →
        c.lookup (fuel + 1) scopeId name r =
          ({ r with imports := [h] }).setSymbol (some h) true) ∧
      (2 ≤ (c.lookupImportHits scopeId name r).length →
        (c.lookup (fuel + 1) scopeId name r).resultKind =
          .AmbiguousImport ∧
        (c.lookup (fuel + 1) scopeId name r).symbol = r.symbol ∧
        (c.lookup (fuel + 1) scopeId name r).imports =
          c.lookupImportHits scopeId name r) ∧
      (c.lookupImportHits scopeId name r = [] →
        (c.sym (c.scope scopeId).thisSym).kind ≠ .Root →
        ∀ parent, (c.sym (c.scope scopeId).thisSym).parentScope = some parent →
          c.lookup (fuel + 1) scopeId name r =
            c.lookup fuel parent name
              { r with referencePoint :=
                  LookupRefPoint.after c (c.scope scopeId).thisSym }) := by
  intro c fuel scopeId name r hlocal himp
  refine ⟨?_, ?_, ?_, ?_, ?_⟩
  · intro imp hmem
    have hp := List.mem_takeWhile_imp hmem
    simp only [LookupRefPoint.lt, Bool.not_eq_true', decide_eq_false_iff_not,
      Nat.not_lt] at hp
    omega
  · rw [consultedImports]
    exact List.takeWhile_append_dropWhile _ _
  · intro h hh
    simp only [Compilation.lookup, hlocal, hh, List.foldl_cons,
      List.foldl_nil]
    rcases r with ⟨nk, rp, rk, sy, rwi, im⟩
    simp only at himp
    subst himp
    simp [LookupResult.addPotentialImport, LookupResult.setSymbol]
  · intro hh
    match hhits : c.lookupImportHits scopeId name r with
    | [] => rw [hhits] at hh; simp at hh
    | [a] => rw [hhits] at hh; simp at hh
    | a :: b :: t =>
      rw [hhits] at hh
      simp only [Compilation.lookup, hlocal, hhits]
      obtain ⟨h1, h2, h3, h4, h5⟩ :=
        foldl_addPotentialImport_fields (a :: b :: t) r
      refine ⟨foldl_addPotentialImport_amb a b t r himp, h3, ?_⟩
      rw [h5, himp, List.nil_append]
  · intro hhits hnroot parent hparent
    simp only [Compilation.lookup, hlocal, hhits, List.foldl_nil,
      if_neg hnroot, hparent]

/-- Witness for C3: with packages p and q both exporting foo and both
imports before the reference point, the lookup of foo is AmbiguousImport
with a null symbol and the two candidates recorded. -/
theorem lookup_wildcard_import_ambiguity_witness :
    (Compilation.lookup ambExample (1 + 1) 3 "foo" refAmb).resultKind =
      .AmbiguousImport ∧
    (Compilation.lookup ambExample (1 + 1) 3 "foo" refAmb).symbol = none ∧
    (Compilation.lookup ambExample (1 + 1) 3 "foo" refAmb).imports =
      [3, 4] := by
  have h := (lookup_wildcard_import_ambiguity ambExample 1 3 "foo" refAmb
    (by decide) rfl).2.2.2.1 (by decide)
  exact ⟨h.1, h.2.1.trans rfl, h.2.2.trans (by decide)⟩

/-- Helper: spliceAfter keeps the head of the chain. -/
theorem spliceAfter_head :
    ∀ (c : List (Nat × Nat)) (a m : Nat),
      (spliceAfter c a m).head? = c.head? := by
  intro c a m
  match c with
  | [] => rfl
  | (k, idx) :: rest =>
    simp only [spliceAfter]
    by_cases h : k = a
    · simp [h]
    · simp [h]

/-- Helper: spliceAfter preserves the non-decreasing-index invariant and the
indices-at-least-one invariant. -/
theorem spliceAfter_invariant :
    ∀ (c : List (Nat × Nat)) (a m : Nat),
      List.Chain' (fun p q => p.2 ≤ q.2) c → (∀ x ∈ c, 1 ≤ x.2) →
      List.Chain' (fun p q => p.2 ≤ q.2) (spliceAfter c a m) ∧
      (∀ x ∈ spliceAfter c a m, 1 ≤ x.2) := by
  intro c
  induction c with
  | nil =>
    intro a m h1 h2
    exact ⟨List.chain'_nil, by simp [spliceAfter]⟩
  | cons p rest ih =>
    intro a m h1 h2
    obtain ⟨k, idx⟩ := p
    have hidx : 1 ≤ idx := h2 (k, idx) (List.mem_cons_self _ _)
    simp only [spliceAfter]
    by_cases hk : k = a
    · rw [if_pos hk]
      rcases rest with _ | ⟨q, rest'⟩
      · refine ⟨?_, ?_⟩
        · simp only [List.chain'_cons, List.chain'_singleton, and_true]
          omega
        · intro x hx
          rcases List.mem_cons.mp hx with h | h
          · subst h; exact hidx
          · rcases List.mem_cons.mp h with h' | h'
            · subst h'; simp
            · simp at h'
      · have hq : idx ≤ q.2 := (List.chain'_cons.mp h1).1
        refine ⟨?_, ?_⟩
        · simp only [List.chain'_cons]
          refine ⟨by simp, by simpa using hq, (List.chain'_cons.mp h1).2⟩
        · intro x hx
          rcases List.mem_cons.mp hx with h | h
          · subst h; exact hidx
          · rcases List.mem_cons.mp h with h' | h'
            · subst h'; simpa using hidx
            · exact h2 x (List.mem_cons_of_mem _ h')
    · rw [if_neg hk]
      have hrest : List.Chain' (fun p q => p.2 ≤ q.2) rest :=
        (List.chain'_cons'.mp h1).2
      have hrest2 : ∀ x ∈ rest, 1 ≤ x.2 :=
        fun x hx => h2 x (List.mem_cons_of_mem _ hx)
      obtain ⟨ih1, ih2⟩ := ih a m hrest hrest2
      refine ⟨?_, ?_⟩
      · apply List.chain'_cons'.mpr
        refine ⟨?_, ih1⟩
        intro y hy
        rw [spliceAfter_head] at hy
        exact (List.chain'_cons'.mp h1).1 y hy
      · intro x hx
        rcases List.mem_cons.mp hx with h | h
        · subst h; exact hidx
        · exact ih2 x h

/-- Helper: chains reachable by insertMember calls have non-decreasing
indices along the chain, all at least 1. -/
theorem chainReachable_invariant :
    ∀ chain, ChainReachable chain →
      List.Chain' (fun p q => p.2 ≤ q.2) chain ∧ ∀ x ∈ chain, 1 ≤ x.2 := by
  intro chain h
  induction h with
  | nil => exact ⟨List.chain'_nil, by simp⟩
  | step c m anchor hc ih =>
    obtain ⟨ih1, ih2⟩ := ih
    match anchor with
    | none =>
      rw [insertMember]
      refine ⟨List.chain'_cons'.mpr ⟨?_, ih1⟩, ?_⟩
      · intro y hy
        have hmem : y ∈ c := by
          rcases c with _ | ⟨z, zs⟩
          · simp at hy
          · simp at hy; subst hy; exact List.mem_cons_self _ _
        have := ih2 y hmem
        simp
        omega
      · intro x hx
        rcases List.mem_cons.mp hx with h | h
        · subst h; simp
        · exact ih2 x h
    | some a =>
      rw [insertMember]
      exact spliceAfter_invariant c a m ih1 ih2

/-- Helper: spliceAfter preserves membership of existing chain elements. -/
theorem mem_spliceAfter :
    ∀ (c : List (Nat × Nat)) (a m : Nat) (x : Nat × Nat),
      x ∈ c → x ∈ spliceAfter c a m := by
  intro c
  induction c with
  | nil => intro a m x hx; simp at hx
  | cons p rest ih =>
    intro a m x hx
    obtain ⟨k, idx⟩ := p
    simp only [spliceAfter]
    by_cases hk : k = a
    · rw [if_pos hk]
      rcases List.mem_cons.mp hx with h | h
      · exact List.mem_cons.mpr (Or.inl h)
      · exact List.mem_cons.mpr (Or.inr (List.mem_cons.mpr (Or.inr h)))
    · rw [if_neg hk]
      rcases List.mem_cons.mp hx with h | h
      · exact List.mem_cons.mpr (Or.inl h)
      · exact List.mem_cons.mpr (Or.inr (ih a m x h))

/-- Helper: splicing after the last member assigns the anchor index plus
one. -/
theorem spliceAfter_tail_eq :
    ∀ (pre : List (Nat × Nat)) (a i m : Nat), (∀ x ∈ pre, x.1 ≠ a) →
      spliceAfter (pre ++ [(a, i)]) a m = pre ++ [(a, i), (m, i + 1)] := by
  intro pre
  induction pre with
  | nil => intro a i m h; simp [spliceAfter]
  | cons p rest ih =>
    intro a i m h
    obtain ⟨k, idx⟩ := p
    have hk : k ≠ a := h (k, idx) (List.mem_cons_self _ _)
    simp only [List.cons_append, spliceAfter, if_neg hk, List.append_eq]
    rw [ih a i m (fun x hx => h x (List.mem_cons_of_mem _ hx))]

/-- Helper: splicing after a non-tail anchor shares the anchor's index. -/
theorem spliceAfter_nonTail_eq :
    ∀ (pre : List (Nat × Nat)) (a i m : Nat) (y : Nat × Nat)
      (rest : List (Nat × Nat)), (∀ x ∈ pre, x.1 ≠ a) →
      spliceAfter (pre ++ (a, i) :: y :: rest) a m =
        pre ++ (a, i) :: (m, i) :: y :: rest := by
  intro pre
  induction pre with
  | nil => intro a i m y rest h; simp [spliceAfter]
  | cons p pre' ih =>
    intro a i m y rest h
    obtain ⟨k, idx⟩ := p
    have hk : k ≠ a := h (k, idx) (List.mem_cons_self _ _)
    simp only [List.cons_append, spliceAfter, if_neg hk, List.append_eq]
    rw [ih a i m y rest (fun x hx => h x (List.mem_cons_of_mem _ hx))]

/-- C5 (amended): along any chain reachable by insertMember calls the
in-scope index never decreases and every index is at least 1; insertMember
with a null anchor assigns index 1 and makes the member the new head;
splicing after the last member assigns the anchor's index plus one; splicing
after a non-tail anchor shares the anchor's index; and insertions never
change the (id, index) pairs of existing members, so splicing transparent
members does not change the declared-before-use outcome of any later
sibling.  Consecutive indices need not strictly increase outside non-tail
splices of the later member: a null-anchor insertion in front of an existing
index-1 member also produces an equal consecutive pair. -/
theorem insertMember_index_invariant :
    (∀ (chain : List (Nat × Nat)) (m : Nat),
      insertMember chain m none = (m, 1) :: chain) ∧
    (∀ (pre : List (Nat × Nat)) (a i m : Nat), (∀ x ∈ pre, x.1 ≠ a) →
      insertMember (pre ++ [(a, i)]) m (some a) =
        pre ++ [(a, i), (m, i + 1)]) ∧
    (∀ (pre : List (Nat × Nat)) (a i m : Nat) (y : Nat × Nat)
      (rest : List (Nat × Nat)), (∀ x ∈ pre, x.1 ≠ a) →
      insertMember (pre ++ (a, i) :: y :: rest) m (some a) =
        pre ++ (a, i) :: (m, i) :: y :: rest) ∧
    (∀ (chain : List (Nat × Nat)) (m : Nat) (anchor : Option Nat)
      (x : Nat × Nat), x ∈ chain → x ∈ insertMember chain m anchor) ∧
    (∀ chain, ChainReachable chain →
      List.Chain' (fun p q => p.2 ≤ q.2) chain ∧ ∀ x ∈ chain, 1 ≤ x.2) := by
  refine ⟨fun chain m => rfl, ?_, ?_, ?_, chainReachable_invariant⟩
  · intro pre a i m h
    rw [insertMember]
    exact spliceAfter_tail_eq pre a i m h
  · intro pre a i m y rest h
    rw [insertMember]
    exact spliceAfter_nonTail_eq pre a i m y rest h
  · intro chain m anchor x hx
    match anchor with
    | none => exact List.mem_cons_of_mem _ hx
    | some a => exact mem_spliceAfter chain a m x hx

/-- Witness for C5 (amended): splicing after the single (hence last) member
of a chain assigns the anchor's index plus one. -/
theorem insertMember_index_invariant_witness :
    insertMember [(5, 1)] 7 (some 5) = [(5, 1), (7, 2)] := by
  have h := insertMember_index_invariant.2.1 [] 5 1 7 (by simp)
  simpa using h

/-- C5 counterexample: member 10 is inserted into an empty chain with a null
anchor (it is the chain's tail, not a non-tail splice); member 20 is then
prepended, also with a null anchor.  The resulting consecutive pair
(20, 1), (10, 1) has equal indices, so the index does not strictly increase
from one member to the next even though the later member of the pair was
never spliced at a non-tail position. -/
theorem insertMember_strict_increase_counterexample :
    insertMember (insertMember [] 10 none) 20 none = [(20, 1), (10, 1)] ∧
    ¬ List.Chain' (fun p q => p.2 < q.2)
        (insertMember (insertMember [] 10 none) 20 none) := by
  refine ⟨rfl, ?_⟩
  intro h
  have : (1 : Nat) < 1 := by
    have h' := h
    rw [show insertMember (insertMember [] 10 none) 20 none =
      [(20, 1), (10, 1)] from rfl] at h'
    exact (List.chain'_cons.mp h').1
  omega

/-- C7: a diagnostic whose originating symbol sits under a non-instantiated
GenerateBlock (the suppression climb succeeds) is not recorded in the
persistent diagnostic map, does not change the error count, never shows up
in the semantic diagnostic list, and the caller still receives the
diagnostic back. -/
theorem addDiag_suppressed_generate_block :
    ∀ (c : Compilation) (fuel : Nat) (st : DiagState) (d : Diagnostic)
      (instCount : Option Nat → Nat),
      c.isSuppressed fuel d.symbol = true →
      (c.addDiag fuel st d).1.diagMap = st.diagMap ∧
      (c.addDiag fuel st d).1.numErrors = st.numErrors ∧
      (c.addDiag fuel st d).2 = d ∧
      c.semanticDiagnostics fuel instCount (c.addDiag fuel st d).1.diagMap =
        c.semanticDiagnostics fuel instCount st.diagMap := by
  intro c fuel st d instCount h
  simp [Compilation.addDiag, h]

/-- Witness for C7: the diagnostic on the variable inside the dead generate
block leaves an empty store untouched and is still handed back. -/
theorem addDiag_suppressed_generate_block_witness :
    (Compilation.addDiag genExample 3 { } suppressedDiag).1.diagMap = [] ∧
    (Compilation.addDiag genExample 3 { } suppressedDiag).1.numErrors = 0 ∧
    (Compilation.addDiag genExample 3 { } suppressedDiag).2 =
      suppressedDiag := by
  have h := addDiag_suppressed_generate_block genExample 3 { } suppressedDiag
    (fun _ => 0) (by decide)
  exact ⟨h.1, h.2.1, h.2.2.1⟩

/-- Helper: a preferred occurrence makes the walk step record it together
with its effective instance and bump the count. -/
theorem coalesceStep_preferred :
    ∀ (c : Compilation) (fuel : Nat) (st : CoalesceWalk) (d : Diagnostic),
      c.preferredDiag fuel d = true →
      c.coalesceStep fuel st d =
        { found := some d, inst := c.getInstanceOrDef fuel d.symbol,
          count := st.count + 1 } := by
  intro c fuel st d h
  rw [Compilation.preferredDiag.eq_def] at h
  rw [Compilation.coalesceStep.eq_def]
  split
  · rename_i hg
    rw [hg] at h
    simp at h
  · rename_i s hg
    rw [hg] at h
    simp only [] at h
    split
    · rename_i hp
      rw [hp] at h
      simp at h
    · rename_i ps hp
      rw [hp] at h
      by_cases hin : c.isInsideDef fuel s = true
      · simp [hin] at h
      · by_cases hroot : (c.sym ((c.scope ps).thisSym)).kind = .Root
        · simp [hroot] at h
        · by_cases hcu :
              (c.sym ((c.scope ps).thisSym)).kind = .CompilationUnit
          · simp [hcu] at h
          · rw [if_neg hin, if_pos ⟨hroot, hcu⟩, hg]

/-- Helper: a qualifying but non-preferred occurrence only bumps the count. -/
theorem coalesceStep_qualifies_only :
    ∀ (c : Compilation) (fuel : Nat) (st : CoalesceWalk) (d : Diagnostic),
      c.preferredDiag fuel d = false → c.qualifies fuel d = true →
      c.coalesceStep fuel st d = { st with count := st.count + 1 } := by
  intro c fuel st d hnp hq
  rw [Compilation.preferredDiag.eq_def] at hnp
  rw [Compilation.qualifies.eq_def] at hq
  rw [Compilation.coalesceStep.eq_def]
  split
  · rename_i hg
    rw [hg] at hq
    simp at hq
  · rename_i s hg
    rw [hg] at hq
    rw [hg] at hnp
    simp only [] at hq hnp
    split
    · rename_i hp
      rw [hp] at hq
      simp at hq
    · rename_i ps hp
      rw [hp] at hq
      rw [hp] at hnp
      simp only [] at hq hnp
      have hin : c.isInsideDef fuel s = false := by
        simpa using hq
      have hcond : ¬((c.sym ((c.scope ps).thisSym)).kind ≠ .Root ∧
          (c.sym ((c.scope ps).thisSym)).kind ≠ .CompilationUnit) := by
        intro hand
        simp [hin, hand.1, hand.2] at hnp
      rw [if_neg (by simp [hin]), if_neg hcond]

/-- Helper: an occurrence that does not qualify leaves the walk state
unchanged. -/
theorem coalesceStep_not_qualifying :
    ∀ (c : Compilation) (fuel : Nat) (st : CoalesceWalk) (d : Diagnostic),
      c.qualifies fuel d = false →
      c.coalesceStep fuel st d = st := by
  intro c fuel st d hq
  rw [Compilation.qualifies.eq_def] at hq
  rw [Compilation.coalesceStep.eq_def]
  split
  · rfl
  · rename_i s hg
    rw [hg] at hq
    simp only [] at hq
    split
    · rfl
    · rename_i ps hp
      rw [hp] at hq
      simp only [] at hq
      have hin : c.isInsideDef fuel s = true := by
        simpa using hq
      rw [if_pos hin]

/-- Helper: preferred occurrences qualify for the count. -/
theorem preferred_qualifies :
    ∀ (c : Compilation) (fuel : Nat) (d : Diagnostic),
      c.preferredDiag fuel d = true → c.qualifies fuel d = true := by
  intro c fuel d h
  rw [Compilation.preferredDiag.eq_def] at h
  rw [Compilation.qualifies.eq_def]
  split
  · rename_i hg
    rw [hg] at h
    simp at h
  · rename_i s hg
    rw [hg] at h
    simp only [] at h
    split
    · rename_i hp
      rw [hp] at h
      simp at h
    · rename_i ps hp
      rw [hp] at h
      simp only [] at h
      simp only [Bool.and_eq_true] at h
      exact h.1.1

/-- Helper: folding the preference step from an already-found accumulator
still yields the last preferred element when one exists. -/
theorem lastPreferredAux_some :
    ∀ (c : Compilation) (fuel : Nat) (l : List Diagnostic) (d : Diagnostic),
      lastPreferredAux c fuel (some d) l =
        (match lastPreferredAux c fuel none l with
         | some x => some x
         | none => some d) := by
  intro c fuel l
  induction l with
  | nil => intro d; rfl
  | cons a t ih =>
    intro d
    simp only [lastPreferredAux, List.foldl_cons]
    by_cases hp : c.preferredDiag fuel a = true
    · simp only [if_pos hp]
      rw [show (t.foldl
          (fun acc x => if c.preferredDiag fuel x = true then some x else acc)
          (some a)) = lastPreferredAux c fuel (some a) t from rfl, ih a]
      cases lastPreferredAux c fuel none t <;> rfl
    · simp only [if_neg hp]
      exact ih d

/-- Helper: the head step of lastPreferred. -/
theorem lastPreferred_cons :
    ∀ (c : Compilation) (fuel : Nat) (d : Diagnostic) (t : List Diagnostic),
      lastPreferred c fuel (d :: t) =
        (if c.preferredDiag fuel d = true then
          (match lastPreferred c fuel t with
           | some x => some x
           | none => some d)
         else lastPreferred c fuel t) := by
  intro c fuel d t
  rw [lastPreferred, lastPreferredAux, List.foldl_cons]
  by_cases hp : c.preferredDiag fuel d = true
  · simp only [if_pos hp]
    rw [show (t.foldl
        (fun acc x => if c.preferredDiag fuel x = true then some x else acc)
        (some d)) = lastPreferredAux c fuel (some d) t from rfl,
      lastPreferredAux_some c fuel t d]
    rfl
  · simp only [if_neg hp]
    rfl

/-- Helper: the occurrence walk computes the count of qualifying
occurrences, the last preferred occurrence and its effective instance. -/
theorem coalesce_foldl :
    ∀ (c : Compilation) (fuel : Nat) (l : List Diagnostic)
      (st : CoalesceWalk),
      (l.foldl (c.coalesceStep fuel) st).count =
        st.count + l.countP (c.qualifies fuel) ∧
      (l.foldl (c.coalesceStep fuel) st).found =
        (match lastPreferred c fuel l with
         | some x => some x
         | none => st.found) ∧
      (l.foldl (c.coalesceStep fuel) st).inst =
        (match lastPreferred c fuel l with
         | some x => c.getInstanceOrDef fuel x.symbol
         | none => st.inst) := by
  intro c fuel l
  induction l with
  | nil =>
    intro st
    simp [lastPreferred, lastPreferredAux]
  | cons d t ih =>
    intro st
    simp only [List.foldl_cons, List.countP_cons,
      lastPreferred_cons c fuel d t]
    by_cases hp : c.preferredDiag fuel d = true
    · have hq := preferred_qualifies c fuel d hp
      rw [coalesceStep_preferred c fuel st d hp]
      obtain ⟨ih1, ih2, ih3⟩ := ih
        { found := some d, inst := c.getInstanceOrDef fuel d.symbol,
          count := st.count + 1 }
      refine ⟨?_, ?_, ?_⟩
      · rw [ih1]
        simp [hq]
        omega
      · rw [ih2]
        simp only [if_pos hp]
        cases lastPreferred c fuel t <;> rfl
      · rw [ih3]
        simp only [if_pos hp]
        cases lastPreferred c fuel t <;> rfl
    · have hp' : c.preferredDiag fuel d = false := by simpa using hp
      by_cases hq : c.qualifies fuel d = true
      · rw [coalesceStep_qualifies_only c fuel st d hp' hq]
        obtain ⟨ih1, ih2, ih3⟩ := ih { st with count := st.count + 1 }
        refine ⟨?_, ?_, ?_⟩
        · rw [ih1]
          simp [hq]
          omega
        · rw [ih2]
          simp only [if_neg hp]
        · rw [ih3]
          simp only [if_neg hp]
      · have hq' : c.qualifies fuel d = false := by simpa using hq
        rw [coalesceStep_not_qualifying c fuel st d hq']
        obtain ⟨ih1, ih2, ih3⟩ := ih st
        refine ⟨?_, ?_, ?_⟩
        · rw [ih1]
          simp [hq']
        · rw [ih2]
          simp only [if_neg hp]
        · rw [ih3]
          simp only [if_neg hp]

/-- C4: per coalesce group, getSemanticDiagnostics emits exactly one
diagnostic: a valid definitionIndex emits that occurrence unmodified;
otherwise, when a preferred per-instance occurrence exists and its
definition's instance count strictly exceeds the number of qualifying
occurrences, a copy is emitted with the symbol set to the effective
instance and coalesceCount set to that count; in all other cases the first
occurrence is emitted unchanged. -/
theorem getSemanticDiagnostics_coalesce :
    ∀ (c : Compilation) (fuel : Nat) (instCount : Option Nat → Nat)
      (e : DiagEntry),
      (∀ h : e.definitionIndex < e.diagList.length,
        c.issueDiagnostic fuel instCount e =
          e.diagList.get ⟨e.definitionIndex, h⟩) ∧
      (e.diagList.length ≤ e.definitionIndex →
        (∀ d i, lastPreferred c fuel e.diagList = some d →
          c.getInstanceOrDef fuel d.symbol = some i →
          (instCount (c.sym i).definition >
              e.diagList.countP (c.qualifies fuel) →
            c.issueDiagnostic fuel instCount e =
              { d with symbol := c.getInstanceOrDef fuel (some i),
                       coalesceCount :=
                         some (e.diagList.countP (c.qualifies fuel)) }) ∧
          (instCount (c.sym i).definition ≤
              e.diagList.countP (c.qualifies fuel) →
            c.issueDiagnostic fuel instCount e = e.diagList.headI)) ∧
        (lastPreferred c fuel e.diagList = none →
          c.issueDiagnostic fuel instCount e = e.diagList.headI)) := by
  intro c fuel instCount e
  constructor
  · intro h
    simp only [Compilation.issueDiagnostic, dif_pos h]
  · intro hlen
    have hnot : ¬ e.definitionIndex < e.diagList.length := Nat.not_lt.mpr hlen
    obtain ⟨hc, hf, hi⟩ := coalesce_foldl c fuel e.diagList {}
    constructor
    · intro d i hd hgi
      rw [hd] at hf hi
      simp only [] at hf hi
      rw [hgi] at hi
      constructor
      · intro hgt
        simp only [Compilation.issueDiagnostic, dif_neg hnot]
        rw [hf, hi]
        simp only []
        rw [hc]
        simp only [Nat.zero_add]
        rw [if_pos hgt]
      · intro hle
        simp only [Compilation.issueDiagnostic, dif_neg hnot]
        rw [hf, hi]
        simp only []
        rw [hc]
        simp only [Nat.zero_add]
        rw [if_neg (Nat.not_lt.mpr hle)]
    · intro hnone
      rw [hnone] at hf
      simp only [] at hf
      simp only [Compilation.issueDiagnostic, dif_neg hnot]
      rw [hf]

/-- Witness for C4: a group whose definitionIndex is valid emits exactly
that occurrence unmodified. -/
theorem getSemanticDiagnostics_coalesce_witness :
    Compilation.issueDiagnostic { } 1 (fun _ => 0)
        { diagList := [defSiteDiag], definitionIndex := 0 } =
      defSiteDiag := by
  have h := (getSemanticDiagnostics_coalesce { } 1 (fun _ => 0)
    { diagList := [defSiteDiag], definitionIndex := 0 }).1 (by decide)
  simpa using h

/-- Witness for C9 at concrete points with different scopes. -/
theorem lookupRefPoint_lt_index_only_witness :
    LookupRefPoint.lt { scope := none, index := 1 }
      { scope := some 5, index := 2 } = true :=
  (lookupRefPoint_lt_index_only { scope := none, index := 1 }
    { scope := some 5, index := 2 }).1.mpr (by decide)

/-- Witness for C2: the two-module example yields a name-sorted top list. -/
theorem getRoot_top_instances_witness :
    List.Sorted (fun a b => a.name ≤ b.name)
      topExample.topInstanceDefinitions :=
  (getRoot_top_instances topExample
    { name := "a", definitionKind := .Module, parameters := [true] }).2
